import Mathlib

/-!
Shallow embedding of the travela_ai chat widget core: the conversation
controller (`sendMessage`, the localStorage load/save effects) of the two
components (`ChatApp` in part_000 and `SupportChatWidget` in part_001), the
line-based message formatter `formatMessage` of part_000, and the image
auto-linking pre-pass `formatTextWithImages` of `ChatResponseView`.

Machine integers do not occur; ids and timestamps are `Date.now()` values
modelled as `Nat` clock readings passed in explicitly.  The asynchronous
`fetch` is modelled by a `FetchResult` parameter describing how the request
settles, and `sendMessage` is split into the synchronous prefix
(`sendMessageStart`, everything before the `await`) and the settlement
continuation (`sendMessageSettle`, the `try`/`catch`/`finally` tail).
-/

/-!
JavaScript string primitives, implemented over `List Char` so that every
definition evaluates inside the kernel.  They model, respectively, the `\s`
character class (restricted to its ASCII members plus NBSP and BOM; the
remaining Unicode space separators never occur in the texts at issue),
`String.prototype.trim`, single-character `String.prototype.split`,
`String.prototype.startsWith` on a prefix pattern, and
`String.prototype.includes` on a substring pattern.
-/

/-- Characters treated as whitespace by JavaScript trimming and by `\s`. -/
def jsWhitespaceChar (c : Char) : Bool :=
  c == ' ' || c == '\t' || c == '\n' || c == '\r' || c == '\x0b' || c == '\x0c' ||
  c == ' ' || c == '﻿'

/-- Drop leading whitespace. -/
def trimLeftL : List Char → List Char
  | [] => []
  | c :: cs => if jsWhitespaceChar c then trimLeftL cs else c :: cs

/-- JavaScript `trim` over a character list: drop trailing then leading
whitespace. -/
def jsTrimList (cs : List Char) : List Char :=
  trimLeftL ((trimLeftL cs.reverse).reverse)

/-- JavaScript `s.trim()`. -/
def jsTrim (s : String) : String := String.mk (jsTrimList s.toList)

/-- JavaScript `s.split(sep)` for a one-character separator: accumulate the
current fragment and emit it at each separator and at the end (so `""`
splits to `[""]` and a trailing separator yields a trailing `""`). -/
def splitOnCharAux (sep : Char) : List Char → List Char → List (List Char)
  | [], acc => [acc.reverse]
  | c :: cs, acc =>
    if c == sep then acc.reverse :: splitOnCharAux sep cs []
    else splitOnCharAux sep cs (c :: acc)

/-- JavaScript `s.split(sep)` for a one-character separator. -/
def splitOnChar (sep : Char) (cs : List Char) : List (List Char) :=
  splitOnCharAux sep cs []

/-- Whether `pat` is a prefix of the second list (character-wise `==`). -/
def hasPrefixL : List Char → List Char → Bool
  | [], _ => true
  | _ :: _, [] => false
  | p :: ps, c :: cs => p == c && hasPrefixL ps cs

/-- Whether `pat` is a suffix of `cs`. -/
def hasSuffixL (pat cs : List Char) : Bool :=
  hasPrefixL pat.reverse cs.reverse

/-- JavaScript `s.includes(pat)`: `pat` occurs as a contiguous substring. -/
def containsSub (pat : List Char) : List Char → Bool
  | [] => hasPrefixL pat []
  | c :: cs => hasPrefixL pat (c :: cs) || containsSub pat cs

/-- The `sender` field of the `Message` interface: `'user' | 'bot'`. -/
inductive Sender where
  | user
  | bot
  deriving DecidableEq

/-- The `Message` interface (part_000 lines 4-9 / part_001 lines 435-441).
`id` and `timestamp` are `Date.now()` millisecond values; `requestId` is
`none` for the `ChatApp` component, which has no such field. -/
structure Message where
  id : Nat
  text : String
  sender : Sender
  timestamp : Nat
  requestId : Option String
  deriving DecidableEq

/-- The fallback used when the response body has no non-empty `output`:
`data.output || 'Sorry, I could not process your request.'`. -/
def fallbackText : String := "Sorry, I could not process your request."

/-- The fixed error text appended in the `catch` branch of `sendMessage`. -/
def errorText : String :=
  "Sorry, I encountered an error while processing your request. Please try again."

/-- How the outbound request settles, as observed by `sendMessage`:
the `fetch` promise rejects (`networkError`), the response has
`response.ok = false` (`httpError`, which `throw`s into the `catch`),
`response.json()` rejects (`jsonError`), or the body parses to an
`ApiResponse` whose optional `output` field is `output`. -/
inductive FetchResult where
  | networkError
  | httpError
  | jsonError
  | ok (output : Option String)
  deriving DecidableEq

/-- True on the three settlement shapes that reach the `catch` branch. -/
def FetchResult.isFailure : FetchResult → Bool
  | .ok _ => false
  | _ => true

/-- The slice of component state that `sendMessage` reads and writes:
`messages`, `inputMessage` and `isLoading`. -/
structure ChatState where
  messages : List Message
  inputMessage : String
  isLoading : Bool
  deriving DecidableEq

/-- The `onChange` handler: `setInputMessage(e.target.value)`. -/
def setInput (st : ChatState) (s : String) : ChatState :=
  { st with inputMessage := s }

/-- The synchronous prefix of `sendMessage`, run when the guard passes:
builds the user `Message` (`id: Date.now()`, text `inputMessage`), appends
it, clears the input and sets `isLoading` to `true`.  `tSend` is the
`Date.now()` reading; `requestId` is `generateUniqueId()` in the widget and
`none` in `ChatApp`. -/
def sendMessageStart (st : ChatState) (tSend : Nat) (requestId : Option String) :
    ChatState :=
  { st with
    messages := st.messages ++
      [⟨tSend, st.inputMessage, Sender.user, tSend, requestId⟩]
    inputMessage := ""
    isLoading := true }

/-- The bot text for a settlement: on success `data.output || fallbackText`
(JavaScript `||`: an absent or empty string falls back), on any failure the
fixed `errorText` of the `catch` branch. -/
def botReplyText (result : FetchResult) : String :=
  match result with
  | .ok output =>
    match output with
    | some s => if s == "" then fallbackText else s
    | none => fallbackText
  | _ => errorText

/-- The settlement continuation of `sendMessage`: appends the bot `Message`
(`id: Date.now() + 1` at settle time `tSettle`, text `botReplyText`), and
the `finally` clause resets `isLoading`. -/
def sendMessageSettle (st : ChatState) (tSettle : Nat) (requestId : Option String)
    (result : FetchResult) : ChatState :=
  { st with
    messages := st.messages ++
      [⟨tSettle + 1, botReplyText result, Sender.bot, tSettle, requestId⟩]
    isLoading := false }

/-- `sendMessage` end to end (part_000 lines 62-113 / part_001 lines 664-724):
the guard `if (!inputMessage.trim() || isLoading) return;` makes the call a
silent no-op, otherwise the synchronous prefix runs and the request settles
as `result`.  The second component is the `prompt` carried by the outbound
request (`none` when no request is issued); the body captures the
pre-clear `inputMessage` variable, as the closure does in the source. -/
def sendMessage (st : ChatState) (tSend tSettle : Nat) (requestId : Option String)
    (result : FetchResult) : ChatState × Option String :=
  if jsTrim st.inputMessage == "" || st.isLoading then (st, none)
  else
    (sendMessageSettle (sendMessageStart st tSend requestId) tSettle requestId result,
      some st.inputMessage)

/-!
Persistence.  The stored chat-history record is abstracted as
`Option StoredHistory`: `none` when the key is absent, `valid msgs` when the
stored JSON parses back to a message array, `corrupt` when `JSON.parse`
throws on it.  Serialization details (timestamps stored as strings and
re-parsed with `new Date`) are not modelled; no claim depends on them.
-/

/-- A persisted chat-history record. -/
inductive StoredHistory where
  | valid (msgs : List Message)
  | corrupt
  deriving DecidableEq

/-- The `ChatApp` save effect (part_000 lines 44-56): when `messages` is
non-empty, persist `messages.slice(Math.max(messages.length - 100, 0))`;
`Nat` truncated subtraction gives the `Math.max … 0` clamp. -/
def chatAppSaveEffect (store : Option StoredHistory) (messages : List Message) :
    Option StoredHistory :=
  if messages.length > 0 then
    some (StoredHistory.valid (messages.drop (messages.length - 100)))
  else store

/-- The `SupportChatWidget` save effect (part_001 lines 622-627): when
`messages` is non-empty, persist the whole list. -/
def widgetSaveMessagesEffect (store : Option StoredHistory) (messages : List Message) :
    Option StoredHistory :=
  if messages.length > 0 then some (StoredHistory.valid messages) else store

/-- The `ChatApp` load effect (part_000 lines 26-42): a present, parseable
record hydrates `messages`; `JSON.parse` throwing lands in the `catch`,
which leaves `messages` initial (`[]`) and runs
`localStorage.removeItem('chatHistory')`.  Returns the hydrated messages and
the store afterwards. -/
def chatAppLoadEffect (store : Option StoredHistory) :
    List Message × Option StoredHistory :=
  match store with
  | none => ([], none)
  | some (StoredHistory.valid msgs) => (msgs, some (StoredHistory.valid msgs))
  | some StoredHistory.corrupt => ([], none)

/-- `getFromLocalStorage` (part_001 lines 467-475), specialised to the
chat-messages record: `JSON.parse` failure is caught and `null` returned;
the stored record is not touched. -/
def getFromLocalStorage (store : Option StoredHistory) : Option (List Message) :=
  match store with
  | none => none
  | some (StoredHistory.valid msgs) => some msgs
  | some StoredHistory.corrupt => none

/-- The widget welcome message (part_001 lines 604-609), with `Date.now()`
reading `t`. -/
def welcomeMessage (t : Nat) : Message :=
  ⟨t, "Hello! I\x27m your Travela support assistant. How can I help you today?",
    Sender.bot, t, none⟩

/-- The messages part of the `SupportChatWidget` load effect (part_001 lines
593-611): hydrate from `getFromLocalStorage` when it yields a non-empty
array, otherwise seed the welcome message; the store is never written. -/
def widgetLoadMessages (store : Option StoredHistory) (t : Nat) :
    List Message × Option StoredHistory :=
  match getFromLocalStorage store with
  | some msgs => if msgs.length > 0 then (msgs, store) else ([welcomeMessage t], store)
  | none => ([welcomeMessage t], store)

/-- A concrete history of `n` messages, used for counterexamples. -/
def mkMsgs (n : Nat) : List Message :=
  (List.range n).map fun i => ⟨i, "m", Sender.user, i, none⟩

/-!
The line formatter `formatMessage` of part_000 (lines 122-194).  Its output
is a list of display blocks, one per line of the input split on newlines.
A table-row cell and a bold-line span are both rendered as a flag/text pair:
for a cell the flag is `cellIndex === 0` (the visually distinguished label
column), for a span it is whether the part is an emphasized `**…**` run.
-/

/-- One display block emitted by `formatMessage` for one line. -/
inductive Block where
  | divider
  | tableRow (cells : List (Bool × String))
  | boldLine (spans : List (Bool × String))
  | italicLine (text : String)
  | spacer
  | plain (text : String)
  deriving DecidableEq

/-- The lazy search for the closing `**` of the regex `\*\*(.*?)\*\*`:
the minimal split of `cs` as `content ++ "**" ++ rest`, where `content` may
not contain a newline (the regex `.` does not match `\n`). -/
def findBoldClose : List Char → Option (List Char × List Char)
  | '*' :: '*' :: rest => some ([], rest)
  | c :: rest =>
    if c == '\n' then none
    else (findBoldClose rest).map fun p => (c :: p.1, p.2)
  | [] => none

/-- The leftmost match of `\*\*.*?\*\*` in `cs`: `(pre, matched, rest)` with
`cs = pre ++ matched ++ rest`.  At an opening `**` with no closing pair the
engine advances one position, i.e. past the first `*` only.  `fuel` bounds
the scan position; `cs.length` suffices. -/
def findBoldMatch : Nat → List Char → Option (List Char × List Char × List Char)
  | 0, _ => none
  | _ + 1, [] => none
  | fuel + 1, '*' :: '*' :: rest =>
    (match findBoldClose rest with
     | some (content, r) => some ([], '*' :: '*' :: (content ++ ['*', '*']), r)
     | none =>
       match findBoldMatch fuel ('*' :: rest) with
       | some (pre, m, r) => some ('*' :: pre, m, r)
       | none => none)
  | fuel + 1, c :: rest =>
    match findBoldMatch fuel rest with
    | some (pre, m, r) => some (c :: pre, m, r)
    | none => none

/-- JavaScript `line.split(/(\*\*.*?\*\*)/)`: the fragments between matches
with the captured matches interleaved (leading, trailing and
between-adjacent-matches empty fragments included). -/
def splitBoldParts : Nat → List Char → List (List Char)
  | 0, cs => [cs]
  | fuel + 1, cs =>
    match findBoldMatch cs.length cs with
    | none => [cs]
    | some (pre, m, rest) => pre :: m :: splitBoldParts fuel rest

/-- JavaScript `s.replace(/\*\*(.*?)\*\*/g, '$1')`: each match replaced by
its capture group, i.e. the match stripped of its outer `**` pair. -/
def replaceBoldPairs : Nat → List Char → List Char
  | 0, cs => cs
  | fuel + 1, cs =>
    match findBoldMatch cs.length cs with
    | none => cs
    | some (pre, m, rest) =>
      pre ++ ((m.drop 2).dropLast.dropLast) ++ replaceBoldPairs fuel rest

/-- `line.split('|').filter(cell => cell.trim() !== '')`. -/
def lineCells (line : String) : List (List Char) :=
  (splitOnChar '|' line.toList).filter fun c => !(jsTrimList c == [])

/-- JavaScript `part.slice(2, -2)`, as used on an emphasized `**…**` part. -/
def sliceBold (cs : List Char) : List Char := ((cs.drop 2).dropLast).dropLast

/-- The fall-through tail of the per-line rules (part_000 lines 154-192):
bold emphasis, italic line, blank spacer, verbatim text — reached when the
table-row group did not return a block. -/
def formatLineRest (line : String) : Block :=
  if containsSub ['*', '*'] line.toList then
    Block.boldLine ((splitBoldParts line.toList.length line.toList).map fun p =>
      if hasPrefixL ['*', '*'] p && hasSuffixL ['*', '*'] p then
        (true, String.mk (sliceBold p))
      else (false, String.mk p))
  else if hasPrefixL ['*'] line.toList && hasSuffixL ['*'] line.toList &&
      !hasPrefixL ['*', '*'] line.toList then
    Block.italicLine (String.mk ((line.toList.drop 1).dropLast))
  else if jsTrimList line.toList == [] then Block.spacer
  else Block.plain line

/-- One line of `formatMessage` (part_000 lines 125-193): a line containing
`|` first tries the table group — divider when it also contains `---`, a
table row when more than one trimmed-non-empty cell remains (cells rendered
as `cell.trim().replace(/\*\*(.*?)\*\*/g, '$1')`, first cell distinguished)
— and otherwise falls through to the remaining rules. -/
def formatLine (line : String) : Block :=
  if line.toList.contains '|' then
    let cells := lineCells line
    if containsSub ['-', '-', '-'] line.toList then Block.divider
    else if cells.length > 1 then
      Block.tableRow (cells.enum.map fun ic =>
        (ic.1 == 0,
          String.mk (replaceBoldPairs (jsTrimList ic.2).length (jsTrimList ic.2))))
    else formatLineRest line
  else formatLineRest line

/-- `formatMessage` (part_000 lines 122-194): split on newlines, one block
per line. -/
def formatMessage (text : String) : List Block :=
  (splitOnChar '\n' text.toList).map fun l => formatLine (String.mk l)

/-!
The image auto-linking pre-pass of `ChatResponseView`
(src/ChatResponseView.tsx lines 28-33 and part_001 lines 506-511):

  input.replace(/(https?:\/\/[^\s]+(\.png|\.jpg|\.jpeg|\.gif))/gi, "![]($1)")

The regex engine is embedded for this one pattern: case-insensitive literal
matching (`matchCI`), the scheme `https?:\/\/` with its greedy optional `s`
(`matchScheme`), the greedy `[^\s]+` with backtracking into the extension
alternation tried in source order (`takeNonSpace`, `matchExt`,
`backtrackExt`), a whole-match attempt at one position (`tryMatchAt`), and
the global leftmost scan of `replace` (`scanSegs`), whose matched segments
are rendered as `![](` match `)` since group 1 spans the whole match.
-/

/-- Case-insensitive literal match of `pat` at the head of the input, JS
`i`-flag style (both sides lowered): returns the consumed original
characters and the remainder. -/
def matchCI : List Char → List Char → Option (List Char × List Char)
  | [], cs => some ([], cs)
  | _ :: _, [] => none
  | p :: ps, c :: cs =>
    if c.toLower == p.toLower then
      (matchCI ps cs).map fun r => (c :: r.1, r.2)
    else none

/-- The scheme part `https?:\/\/`: the optional `s` is greedy, so `s://` is
tried before `://`. -/
def matchScheme (cs : List Char) : Option (List Char × List Char) :=
  match matchCI "http".toList cs with
  | none => none
  | some (h, rest) =>
    match matchCI "s://".toList rest with
    | some (s, rest2) => some (h ++ s, rest2)
    | none =>
      match matchCI "://".toList rest with
      | some (c, rest2) => some (h ++ c, rest2)
      | none => none

/-- The maximal run of `[^\s]` characters at the head of the input, and the
remainder. -/
def takeNonSpace : List Char → List Char × List Char
  | [] => ([], [])
  | c :: cs =>
    if jsWhitespaceChar c then ([], c :: cs)
    else
      let p := takeNonSpace cs
      (c :: p.1, p.2)

/-- The alternation `(\.png|\.jpg|\.jpeg|\.gif)`, tried in source order. -/
def matchExt (cs : List Char) : Option (List Char × List Char) :=
  match matchCI ".png".toList cs with
  | some r => some r
  | none =>
    match matchCI ".jpg".toList cs with
    | some r => some r
    | none =>
      match matchCI ".jpeg".toList cs with
      | some r => some r
      | none => matchCI ".gif".toList cs

/-- Greedy backtracking of `[^\s]+` over the non-space run `r`: the largest
`k ≥ 1` such that the extension alternation matches at `r.drop k`; returns
`k`, the extension characters and what remains of `r` after them. -/
def backtrackExt (r : List Char) : Nat → Option (Nat × List Char × List Char)
  | 0 => none
  | k + 1 =>
    match matchExt (r.drop (k + 1)) with
    | some (ext, rest) => some (k + 1, ext, rest)
    | none => backtrackExt r k

/-- One attempt of the whole pattern at the current position: scheme, then
the greedy `[^\s]+` body with extension backtracking.  Returns the matched
characters and the remainder of the input. -/
def tryMatchAt (cs : List Char) : Option (List Char × List Char) :=
  match matchScheme cs with
  | none => none
  | some (sch, rest) =>
    let p := takeNonSpace rest
    match backtrackExt p.1 p.1.length with
    | none => none
    | some (k, ext, rrest) => some (sch ++ (p.1.take k ++ ext), rrest ++ p.2)

/-- The global scan of `replace`: at each position, either a match is
consumed as a `(true, match)` segment or one character is emitted as a
`(false, [c])` literal segment.  `fuel = input.length` suffices since every
step consumes at least one character. -/
def scanSegs : Nat → List Char → List (Bool × List Char)
  | 0, cs => if cs.isEmpty then [] else [(false, cs)]
  | _ + 1, [] => []
  | fuel + 1, c :: cs =>
    match tryMatchAt (c :: cs) with
    | some (m, rest) => (true, m) :: scanSegs fuel rest
    | none => (false, [c]) :: scanSegs fuel cs

/-- Rebuild the output: matched segments become `![](` match `)` (the
replacement template `![]($1)` with group 1 the whole match), literal
segments are kept verbatim. -/
def renderSegs : List (Bool × List Char) → List Char
  | [] => []
  | (true, m) :: rest => "![](".toList ++ (m ++ (')' :: renderSegs rest))
  | (false, t) :: rest => t ++ renderSegs rest

/-- `formatTextWithImages` (src/ChatResponseView.tsx lines 28-33), identical
to the `formattedText` memo of part_001 lines 506-511. -/
def formatTextWithImages (s : String) : String :=
  String.mk (renderSegs (scanSegs s.toList.length s.toList))

/-- `m` starts with `http://` or `https://` up to letter case. -/
def startsWithSchemeCI (m : List Char) : Bool :=
  (matchCI "http://".toList m).isSome || (matchCI "https://".toList m).isSome

/-- `m` ends with `pat` up to letter case. -/
def endsWithCI (pat m : List Char) : Bool :=
  decide (pat.length ≤ m.length) &&
    (matchCI pat (m.drop (m.length - pat.length))).isSome

/-- A bare image URL in the sense of the pre-pass: an `http(s)` scheme,
no whitespace anywhere, and one of the four image extensions at the end,
everything case-insensitive. -/
def isImageUrl (m : List Char) : Bool :=
  startsWithSchemeCI m && m.all (fun c => !jsWhitespaceChar c) &&
    (endsWithCI ".png".toList m || endsWithCI ".jpg".toList m ||
     endsWithCI ".jpeg".toList m || endsWithCI ".gif".toList m)

/-!
Shared lemmas about the controller.
-/

/-- When the guard passes, `sendMessage` is the settlement of the
synchronous prefix, and the request carries the pre-clear input. -/
theorem sendMessage_run (st : ChatState) (tS tE : Nat) (rid : Option String)
    (res : FetchResult) (h1 : jsTrim st.inputMessage ≠ "") (h2 : st.isLoading = false) :
    sendMessage st tS tE rid res =
      (sendMessageSettle (sendMessageStart st tS rid) tE rid res,
        some st.inputMessage) := by
  have hb : (jsTrim st.inputMessage == "") = false := by
    simpa using h1
  simp [sendMessage, hb, h2]

/-- C1: for every call to `sendMessage` whose input has non-empty trim made
while `isLoading` is false, the synchronous prefix appends exactly one
`user` message to the history, the settled call has appended exactly that
user message plus one `bot` message (never zero, never more), and
`isLoading` is false afterwards. -/
theorem c1_submit_appends_user_then_bot (st : ChatState) (tS tE : Nat)
    (rid : Option String) (res : FetchResult)
    (h1 : jsTrim st.inputMessage ≠ "") (h2 : st.isLoading = false) :
    ∃ u b : Message, u.sender = Sender.user ∧ b.sender = Sender.bot ∧
      (sendMessageStart st tS rid).messages = st.messages ++ [u] ∧
      (sendMessage st tS tE rid res).1.messages = st.messages ++ [u, b] ∧
      (sendMessage st tS tE rid res).1.isLoading = false := by
  have h := sendMessage_run st tS tE rid res h1 h2
  refine ⟨⟨tS, st.inputMessage, Sender.user, tS, rid⟩,
    ⟨tE + 1, botReplyText res, Sender.bot, tE, rid⟩, rfl, rfl, rfl, ?_, ?_⟩
  · rw [h]
    simp [sendMessageSettle, sendMessageStart]
  · rw [h]
    rfl

/-- C1 witness at a concrete state: a non-empty input, not loading. -/
theorem c1_witness :
    ∃ u b : Message, u.sender = Sender.user ∧ b.sender = Sender.bot ∧
      (sendMessageStart ⟨[], "hi", false⟩ 5 none).messages = [] ++ [u] ∧
      (sendMessage ⟨[], "hi", false⟩ 5 9 none FetchResult.networkError).1.messages
        = [] ++ [u, b] ∧
      (sendMessage ⟨[], "hi", false⟩ 5 9 none FetchResult.networkError).1.isLoading
        = false :=
  c1_submit_appends_user_then_bot ⟨[], "hi", false⟩ 5 9 none
    FetchResult.networkError (by decide) rfl

/-- C2: a call made while `isLoading` is true, or whose input trims to the
empty string, is a silent no-op: the state (history included) is returned
unchanged and no request is issued (`none` prompt). -/
theorem c2_submit_noop (st : ChatState) (tS tE : Nat) (rid : Option String)
    (res : FetchResult) (h : jsTrim st.inputMessage = "" ∨ st.isLoading = true) :
    sendMessage st tS tE rid res = (st, none) := by
  rcases h with h | h
  · simp [sendMessage, h]
  · simp [sendMessage, h]

/-- C2 witness: a whitespace-only input is silently ignored. -/
theorem c2_witness :
    sendMessage ⟨[], "   ", false⟩ 1 2 none (FetchResult.ok none)
      = (⟨[], "   ", false⟩, none) :=
  c2_submit_noop ⟨[], "   ", false⟩ 1 2 none (FetchResult.ok none)
    (Or.inl (by decide))

/-- C3: when the request fails (network error, non-2xx status, or an
unparseable body), the history afterwards is the old history plus the user
message and, last, a `bot` message whose text is exactly `errorText`, and
`isLoading` is false.  The embedding is a total function: the `catch` and
`finally` of the source recover every failure locally, so no exception
escapes `sendMessage`. -/
theorem c3_failure_appends_error_text (st : ChatState) (tS tE : Nat)
    (rid : Option String) (res : FetchResult)
    (h1 : jsTrim st.inputMessage ≠ "") (h2 : st.isLoading = false)
    (h3 : res.isFailure = true) :
    (sendMessage st tS tE rid res).1.messages =
      st.messages ++ [⟨tS, st.inputMessage, Sender.user, tS, rid⟩,
                      ⟨tE + 1, errorText, Sender.bot, tE, rid⟩] ∧
    (sendMessage st tS tE rid res).1.isLoading = false := by
  have h := sendMessage_run st tS tE rid res h1 h2
  have ht : botReplyText res = errorText := by
    cases res <;> simp_all [FetchResult.isFailure, botReplyText]
  constructor
  · rw [h]
    simp [sendMessageSettle, sendMessageStart, ht]
  · rw [h]
    rfl

/-- C3 witness: the submitted message `"ping"` against a rejected transport. -/
theorem c3_witness :
    (sendMessage ⟨[], "ping", false⟩ 3 7 none FetchResult.networkError).1.messages =
      [] ++ [⟨3, "ping", Sender.user, 3, none⟩,
             ⟨8, errorText, Sender.bot, 7, none⟩] ∧
    (sendMessage ⟨[], "ping", false⟩ 3 7 none FetchResult.networkError).1.isLoading
      = false :=
  c3_failure_appends_error_text ⟨[], "ping", false⟩ 3 7 none
    FetchResult.networkError (by decide) rfl rfl

/-- C4: when the request succeeds with parsed body `{ output }`, the
appended `bot` message carries `output` itself when it is present and
non-empty, and exactly `fallbackText` when it is absent or the empty
string; `isLoading` is false afterwards. -/
theorem c4_success_output_or_fallback (st : ChatState) (tS tE : Nat)
    (rid : Option String) (out : Option String)
    (h1 : jsTrim st.inputMessage ≠ "") (h2 : st.isLoading = false) :
    (sendMessage st tS tE rid (FetchResult.ok out)).1.messages =
      st.messages ++ [⟨tS, st.inputMessage, Sender.user, tS, rid⟩,
        ⟨tE + 1,
          match out with
          | some s => if s == "" then fallbackText else s
          | none => fallbackText,
          Sender.bot, tE, rid⟩] ∧
    (sendMessage st tS tE rid (FetchResult.ok out)).1.isLoading = false := by
  have h := sendMessage_run st tS tE rid (FetchResult.ok out) h1 h2
  constructor
  · rw [h]
    simp [sendMessageSettle, sendMessageStart, botReplyText]
  · rw [h]
    rfl

/-- C4 witness: a response body `{}` (no `output`) yields the fallback. -/
theorem c4_witness :
    (sendMessage ⟨[], "hi", false⟩ 2 4 none (FetchResult.ok none)).1.messages =
      [] ++ [⟨2, "hi", Sender.user, 2, none⟩,
        ⟨5,
          match (none : Option String) with
          | some s => if s == "" then fallbackText else s
          | none => fallbackText,
          Sender.bot, 4, none⟩] ∧
    (sendMessage ⟨[], "hi", false⟩ 2 4 none (FetchResult.ok none)).1.isLoading
      = false :=
  c4_success_output_or_fallback ⟨[], "hi", false⟩ 2 4 none none (by decide) rfl

/-- C5 counterexample: with 101 messages, the `SupportChatWidget` save
effect persists all 101 of them, not the most recent 100 as the claim
states (the truncating slice exists only in `ChatApp`). -/
theorem c5_counterexample :
    widgetSaveMessagesEffect none (mkMsgs 101)
      = some (StoredHistory.valid (mkMsgs 101)) ∧
    widgetSaveMessagesEffect none (mkMsgs 101)
      ≠ some (StoredHistory.valid ((mkMsgs 101).drop 1)) := by
  constructor
  · decide
  · decide

/-- C5 amended: after more than 100 in-memory messages, the `ChatApp` save
effect persists exactly the most recent 100 of them, in order (a length-100
suffix of the untouched in-memory list), while the `SupportChatWidget` save
effect persists the entire history with no truncation. -/
theorem c5_amended_retention (store store2 : Option StoredHistory)
    (msgs : List Message) (h : msgs.length > 100) :
    chatAppSaveEffect store msgs
      = some (StoredHistory.valid (msgs.drop (msgs.length - 100))) ∧
    (msgs.drop (msgs.length - 100)).length = 100 ∧
    msgs.take (msgs.length - 100) ++ msgs.drop (msgs.length - 100) = msgs ∧
    widgetSaveMessagesEffect store2 msgs = some (StoredHistory.valid msgs) := by
  have h0 : msgs.length > 0 := by omega
  refine ⟨?_, ?_, ?_, ?_⟩
  · simp [chatAppSaveEffect, h0]
  · rw [List.length_drop]
    omega
  · exact List.take_append_drop _ _
  · simp [widgetSaveMessagesEffect, h0]

/-- C5 amended, witnessed on a concrete 101-message history. -/
theorem c5_amended_witness :
    chatAppSaveEffect none (mkMsgs 101)
      = some (StoredHistory.valid
          ((mkMsgs 101).drop ((mkMsgs 101).length - 100))) ∧
    ((mkMsgs 101).drop ((mkMsgs 101).length - 100)).length = 100 ∧
    (mkMsgs 101).take ((mkMsgs 101).length - 100)
      ++ (mkMsgs 101).drop ((mkMsgs 101).length - 100) = mkMsgs 101 ∧
    widgetSaveMessagesEffect none (mkMsgs 101)
      = some (StoredHistory.valid (mkMsgs 101)) :=
  c5_amended_retention none none (mkMsgs 101) (by decide)

/-- C6 counterexample: ids are `Date.now()` readings (`+ 1` for the bot
reply), so with the realisable non-decreasing clock trace 1000, 1000, 1001,
1001 (the first request settles within its send millisecond, the next send
happens one millisecond later) the four appended ids are 1000, 1001, 1001,
1002: the second user message collides with the first bot reply, so ids are
neither distinct nor strictly increasing. -/
theorem c6_counterexample :
    ((sendMessage (setInput (sendMessage ⟨[], "a", false⟩ 1000 1000 none
          (FetchResult.ok (some "x"))).1 "b") 1001 1001 none
          (FetchResult.ok (some "y"))).1.messages.map Message.id)
      = [1000, 1001, 1001, 1002] ∧
    ¬ ((sendMessage (setInput (sendMessage ⟨[], "a", false⟩ 1000 1000 none
          (FetchResult.ok (some "x"))).1 "b") 1001 1001 none
          (FetchResult.ok (some "y"))).1.messages.map Message.id).Nodup := by
  constructor
  · decide
  · decide

/-- C6 amended: provided every existing message id is below the send-time
clock reading (in particular, message creations are separated by more than
the one-millisecond id adjustment) and the settle reading is not before the
send reading, a `sendMessage` call preserves strict monotonicity of the id
sequence, and the ids remain pairwise distinct. -/
theorem c6_amended_ids_monotone (st : ChatState) (tS tE : Nat)
    (rid : Option String) (res : FetchResult)
    (h1 : jsTrim st.inputMessage ≠ "") (h2 : st.isLoading = false)
    (h3 : List.Chain' (· < ·) (st.messages.map Message.id))
    (h4 : ∀ m ∈ st.messages, m.id < tS) (h5 : tS ≤ tE) :
    List.Chain' (· < ·)
      ((sendMessage st tS tE rid res).1.messages.map Message.id) ∧
    ((sendMessage st tS tE rid res).1.messages.map Message.id).Nodup := by
  have h := sendMessage_run st tS tE rid res h1 h2
  have hm : (sendMessage st tS tE rid res).1.messages
      = st.messages ++ [⟨tS, st.inputMessage, Sender.user, tS, rid⟩,
                        ⟨tE + 1, botReplyText res, Sender.bot, tE, rid⟩] := by
    rw [h]
    simp [sendMessageSettle, sendMessageStart]
  have hchain : List.Chain' (· < ·)
      ((sendMessage st tS tE rid res).1.messages.map Message.id) := by
    rw [hm, List.map_append]
    rw [List.chain'_append]
    refine ⟨h3, ?_, ?_⟩
    · simp only [List.map_cons, List.map_nil, List.chain'_cons,
        List.chain'_singleton, and_true]
      omega
    · intro x hx y hy
      simp only [List.map_cons, List.map_nil, List.head?_cons,
        Option.mem_def, Option.some.injEq] at hy
      subst hy
      rcases List.mem_of_mem_getLast? hx with hmem
      rcases List.mem_map.mp hmem with ⟨m, hmmem, hmid⟩
      subst hmid
      exact h4 m hmmem
  refine ⟨hchain, ?_⟩
  have hpw := List.chain'_iff_pairwise.mp hchain
  exact hpw.imp Nat.ne_of_lt

/-- C6 amended, witnessed: a one-message history with id 1 below the send
reading 5 and settle reading 9. -/
theorem c6_amended_witness :
    List.Chain' (· < ·)
      ((sendMessage ⟨[⟨1, "w", Sender.bot, 1, none⟩], "hi", false⟩ 5 9 none
          (FetchResult.ok (some "x"))).1.messages.map Message.id) ∧
    ((sendMessage ⟨[⟨1, "w", Sender.bot, 1, none⟩], "hi", false⟩ 5 9 none
        (FetchResult.ok (some "x"))).1.messages.map Message.id).Nodup :=
  c6_amended_ids_monotone ⟨[⟨1, "w", Sender.bot, 1, none⟩], "hi", false⟩ 5 9 none
    (FetchResult.ok (some "x")) (by decide) rfl (by simp) (by decide) (by decide)

/-- C7 counterexample: on a corrupt stored record, the `SupportChatWidget`
load path neither clears the record (it is still `corrupt` afterwards) nor
starts the live conversation empty (it seeds the welcome message). -/
theorem c7_counterexample :
    (widgetLoadMessages (some StoredHistory.corrupt) 0).2 ≠ none ∧
    (widgetLoadMessages (some StoredHistory.corrupt) 0).1 ≠ [] := by
  constructor
  · decide
  · decide

/-- C7 amended: on an unparseable stored history, `ChatApp` discards it,
starts with an empty conversation and proactively removes the stored record,
while the widget path (`getFromLocalStorage` returning `null`) discards it
and seeds the welcome message but leaves the corrupt record in storage. -/
theorem c7_amended_corrupt_history (t : Nat) :
    chatAppLoadEffect (some StoredHistory.corrupt) = ([], none) ∧
    getFromLocalStorage (some StoredHistory.corrupt) = none ∧
    widgetLoadMessages (some StoredHistory.corrupt) t
      = ([welcomeMessage t], some StoredHistory.corrupt) :=
  ⟨rfl, rfl, rfl⟩

/-- C9: the line `Name | Alice | 30` yields a single table-row block of
exactly three trimmed cells, the first flagged as the distinguished label
column (`cellIndex === 0`); and in the table-row path `**…**` bold markers
inside a cell are stripped to plain text, shown on `x | **bold** | y`. -/
theorem c9_table_row_cells :
    formatMessage "Name | Alice | 30"
      = [Block.tableRow [(true, "Name"), (false, "Alice"), (false, "30")]] ∧
    formatMessage "x | **bold** | y"
      = [Block.tableRow [(true, "x"), (false, "bold"), (false, "y")]] := by
  constructor
  · decide
  · decide

/-- The fall-through rules never emit a divider or a table row. -/
theorem formatLineRest_ne_table (line : String) :
    formatLineRest line ≠ Block.divider ∧
    ∀ cells, formatLineRest line ≠ Block.tableRow cells := by
  unfold formatLineRest
  split_ifs <;> exact ⟨by simp, fun cells => by simp⟩

/-- C10: a line that contains a pipe but whose split-and-filter leaves
fewer than two cells, and that has no `---` run, falls through to the later
rules: the emitted block is exactly `formatLineRest` of the line and is
neither a divider nor a table row. -/
theorem c10_pipe_fallthrough (line : String)
    (hp : line.toList.contains '|' = true)
    (hc : (lineCells line).length < 2)
    (hd : containsSub ['-', '-', '-'] line.toList = false) :
    formatLine line = formatLineRest line ∧
    formatLine line ≠ Block.divider ∧
    ∀ cells, formatLine line ≠ Block.tableRow cells := by
  have hgt : ¬ ((lineCells line).length > 1) := by omega
  have heq : formatLine line = formatLineRest line := by
    have hd' : containsSub ['-', '-', '-'] line.data = false := hd
    have hp' : line.data.contains '|' = true := hp
    simp [formatLine, hp, hp', hd, hd', hgt]
  refine ⟨heq, ?_, ?_⟩
  · rw [heq]
    exact (formatLineRest_ne_table line).1
  · rw [heq]
    exact (formatLineRest_ne_table line).2

/-- C10 witness: the line `a | ` has a pipe, a single non-empty cell and no
dash run; it falls through and renders verbatim. -/
theorem c10_witness :
    formatLine "a | " = formatLineRest "a | " ∧
    formatLine "a | " ≠ Block.divider ∧
    ∀ cells, formatLine "a | " ≠ Block.tableRow cells :=
  c10_pipe_fallthrough "a | " (by decide) (by decide) (by decide)

/-!
Lemmas about the embedded regex engine, leading to C8: every segment the
scan marks as a match is a bare image URL, and the segments concatenate
back to the input.
-/

/-- A successful `matchCI` consumes a prefix of the input. -/
theorem matchCI_eq_append {pat : List Char} : ∀ {cs con rest : List Char},
    matchCI pat cs = some (con, rest) → con ++ rest = cs := by
  induction pat with
  | nil =>
    intro cs con rest h
    simp [matchCI] at h
    rw [h.1, h.2]
    rfl
  | cons p ps ih =>
    intro cs con rest h
    cases cs with
    | nil => simp [matchCI] at h
    | cons c cs' =>
      simp only [matchCI] at h
      split at h
      · rw [Option.map_eq_some'] at h
        obtain ⟨⟨a, b⟩, ha, heq⟩ := h
        injection heq with h1 h2
        subst h1
        subst h2
        have := ih ha
        simp [this]
      · exact absurd h (by simp)

/-- A successful `matchCI` consumes exactly `pat.length` characters. -/
theorem matchCI_length {pat : List Char} : ∀ {cs con rest : List Char},
    matchCI pat cs = some (con, rest) → con.length = pat.length := by
  induction pat with
  | nil =>
    intro cs con rest h
    simp [matchCI] at h
    simp [h.1]
  | cons p ps ih =>
    intro cs con rest h
    cases cs with
    | nil => simp [matchCI] at h
    | cons c cs' =>
      simp only [matchCI] at h
      split at h
      · rw [Option.map_eq_some'] at h
        obtain ⟨⟨a, b⟩, ha, heq⟩ := h
        injection heq with h1 h2
        subst h1
        simp [ih ha]
      · exact absurd h (by simp)

/-- A successful `matchCI` still succeeds on its consumed characters
followed by any other remainder. -/
theorem matchCI_self {pat : List Char} : ∀ {cs con rest : List Char},
    matchCI pat cs = some (con, rest) →
    ∀ rest2, matchCI pat (con ++ rest2) = some (con, rest2) := by
  induction pat with
  | nil =>
    intro cs con rest h rest2
    simp [matchCI] at h
    simp [matchCI, h.1]
  | cons p ps ih =>
    intro cs con rest h rest2
    cases cs with
    | nil => simp [matchCI] at h
    | cons c cs' =>
      simp only [matchCI] at h
      split at h
      · rw [Option.map_eq_some'] at h
        obtain ⟨⟨a, b⟩, ha, heq⟩ := h
        injection heq with h1 h2
        subst h1
        simp only [List.cons_append, matchCI]
        rw [if_pos (by assumption)]
        rw [show (List.append a rest2 : List Char) = a ++ rest2 from rfl]
        rw [ih ha rest2]
        rfl
      · exact absurd h (by simp)

/-- Two successive `matchCI` runs compose to a run of the concatenated
pattern. -/
theorem matchCI_comp {p1 p2 : List Char} : ∀ {cs c1 r1 c2 r2 : List Char},
    matchCI p1 cs = some (c1, r1) → matchCI p2 r1 = some (c2, r2) →
    matchCI (p1 ++ p2) cs = some (c1 ++ c2, r2) := by
  induction p1 with
  | nil =>
    intro cs c1 r1 c2 r2 h1 h2
    simp [matchCI] at h1
    rw [h1.1, List.nil_append, List.nil_append]
    rw [h1.2]
    exact h2
  | cons p ps ih =>
    intro cs c1 r1 c2 r2 h1 h2
    cases cs with
    | nil => simp [matchCI] at h1
    | cons c cs' =>
      simp only [matchCI] at h1
      split at h1
      · rw [Option.map_eq_some'] at h1
        obtain ⟨⟨a, b⟩, ha, heq⟩ := h1
        injection heq with hh1 hh2
        subst hh1
        subst hh2
        simp only [List.cons_append, matchCI]
        rw [if_pos (by assumption)]
        rw [show (List.append ps p2 : List Char) = ps ++ p2 from rfl]
        rw [ih ha h2]
        rfl
      · exact absurd h1 (by simp)

/-- A whitespace character is its own lower-case form. -/
theorem jsWhitespaceChar_toLower {c : Char} (h : jsWhitespaceChar c = true) :
    c.toLower = c := by
  simp [jsWhitespaceChar, or_assoc] at h
  rcases h with h | h | h | h | h | h | h | h <;> subst h <;> decide

/-- Characters consumed by `matchCI` against a pattern whose lower-case
characters are not whitespace are themselves not whitespace. -/
theorem matchCI_nonWS {pat : List Char}
    (hpat : ∀ p ∈ pat, jsWhitespaceChar p.toLower = false) :
    ∀ {cs con rest : List Char}, matchCI pat cs = some (con, rest) →
    ∀ c ∈ con, jsWhitespaceChar c = false := by
  induction pat with
  | nil =>
    intro cs con rest h c hc
    simp [matchCI] at h
    rw [h.1] at hc
    simp at hc
  | cons p ps ih =>
    intro cs con rest h x hx
    cases cs with
    | nil => simp [matchCI] at h
    | cons c cs' =>
      simp only [matchCI] at h
      split at h
      case isTrue hlow =>
        rw [Option.map_eq_some'] at h
        obtain ⟨⟨a, b⟩, ha, heq⟩ := h
        injection heq with h1 h2
        subst h1
        rcases List.mem_cons.mp hx with hx | hx
        · subst hx
          by_contra hws
          have hws' : jsWhitespaceChar x = true := by
            revert hws
            cases jsWhitespaceChar x <;> simp
          have hself := jsWhitespaceChar_toLower hws'
          have hlow' : x.toLower = p.toLower := by simpa using hlow
          have : jsWhitespaceChar p.toLower = true := by
            rw [← hlow', hself]
            exact hws'
          have := hpat p (by simp)
          simp_all
        · exact ih (fun q hq => hpat q (by simp [hq])) ha x hx
      case isFalse => exact absurd h (by simp)

/-- `matchScheme` consumes a non-empty scheme prefix: after it, any
continuation still starts with `http://` or `https://` case-insensitively,
and the consumed characters contain no whitespace. -/
theorem matchScheme_spec {cs sch rest : List Char}
    (h : matchScheme cs = some (sch, rest)) :
    sch ++ rest = cs ∧ sch ≠ [] ∧
    (∀ tail, startsWithSchemeCI (sch ++ tail) = true) ∧
    ∀ c ∈ sch, jsWhitespaceChar c = false := by
  unfold matchScheme at h
  cases hh : matchCI "http".toList cs with
  | none => rw [hh] at h; exact absurd h (by simp)
  | some pr =>
    obtain ⟨hp, rest1⟩ := pr
    rw [hh] at h
    dsimp only at h
    cases hs : matchCI "s://".toList rest1 with
    | some pr2 =>
      obtain ⟨s2, rest2⟩ := pr2
      rw [hs] at h
      simp only [Option.some.injEq, Prod.mk.injEq] at h
      obtain ⟨h1, h2⟩ := h
      subst h1
      subst h2
      have hcomp := matchCI_comp hh hs
      rw [show ("http".toList ++ "s://".toList : List Char) = "https://".toList
        from by decide] at hcomp
      refine ⟨matchCI_eq_append hcomp, ?_, ?_, ?_⟩
      · have := matchCI_length hcomp
        intro hnil
        rw [hnil] at this
        simp at this
      · intro tail
        have hself := matchCI_self hcomp tail
        unfold startsWithSchemeCI
        rw [hself]
        simp
      · exact matchCI_nonWS (by decide) hcomp
    | none =>
      rw [hs] at h
      cases hc : matchCI "://".toList rest1 with
      | none => rw [hc] at h; exact absurd h (by simp)
      | some pr2 =>
        obtain ⟨s2, rest2⟩ := pr2
        rw [hc] at h
        simp only [Option.some.injEq, Prod.mk.injEq] at h
        obtain ⟨h1, h2⟩ := h
        subst h1
        subst h2
        have hcomp := matchCI_comp hh hc
        rw [show ("http".toList ++ "://".toList : List Char) = "http://".toList
          from by decide] at hcomp
        refine ⟨matchCI_eq_append hcomp, ?_, ?_, ?_⟩
        · have := matchCI_length hcomp
          intro hnil
          rw [hnil] at this
          simp at this
        · intro tail
          have hself := matchCI_self hcomp tail
          unfold startsWithSchemeCI
          rw [hself]
          simp
        · exact matchCI_nonWS (by decide) hcomp

/-- `takeNonSpace` splits the input and its first part has no whitespace. -/
theorem takeNonSpace_spec : ∀ cs : List Char,
    (takeNonSpace cs).1 ++ (takeNonSpace cs).2 = cs ∧
    ∀ c ∈ (takeNonSpace cs).1, jsWhitespaceChar c = false := by
  intro cs
  induction cs with
  | nil => simp [takeNonSpace]
  | cons c cs' ih =>
    cases hws : jsWhitespaceChar c with
    | true => simp [takeNonSpace, hws]
    | false =>
      refine ⟨?_, ?_⟩
      · simp [takeNonSpace, hws, ih.1]
      · intro x hx
        simp only [takeNonSpace, hws, Bool.false_eq_true, if_false] at hx
        rcases List.mem_cons.mp hx with hx | hx
        · rw [hx]
          exact hws
        · exact ih.2 x hx

/-- A successful `matchExt` consumes one of the four extension patterns,
case-insensitively. -/
theorem matchExt_spec {cs ext rest : List Char}
    (h : matchExt cs = some (ext, rest)) :
    ext ++ rest = cs ∧
    (matchCI ".png".toList ext = some (ext, []) ∨
     matchCI ".jpg".toList ext = some (ext, []) ∨
     matchCI ".jpeg".toList ext = some (ext, []) ∨
     matchCI ".gif".toList ext = some (ext, [])) := by
  unfold matchExt at h
  cases h1 : matchCI ".png".toList cs with
  | some pr =>
    rw [h1] at h
    simp only [Option.some.injEq] at h
    subst h
    exact ⟨matchCI_eq_append h1, Or.inl (by simpa using matchCI_self h1 [])⟩
  | none =>
    rw [h1] at h
    cases h2 : matchCI ".jpg".toList cs with
    | some pr =>
      rw [h2] at h
      simp only [Option.some.injEq] at h
      subst h
      exact ⟨matchCI_eq_append h2, Or.inr (Or.inl (by simpa using matchCI_self h2 []))⟩
    | none =>
      rw [h2] at h
      cases h3 : matchCI ".jpeg".toList cs with
      | some pr =>
        rw [h3] at h
        simp only [Option.some.injEq] at h
        subst h
        exact ⟨matchCI_eq_append h3,
          Or.inr (Or.inr (Or.inl (by simpa using matchCI_self h3 [])))⟩
      | none =>
        rw [h3] at h
        exact ⟨matchCI_eq_append h, Or.inr (Or.inr (Or.inr (by simpa using matchCI_self h [])))⟩

/-- A successful `backtrackExt` found a positive split point at which the
extension alternation matches. -/
theorem backtrackExt_spec {r : List Char} : ∀ {n k : Nat} {ext rrest : List Char},
    backtrackExt r n = some (k, ext, rrest) →
    1 ≤ k ∧ matchExt (r.drop k) = some (ext, rrest) := by
  intro n
  induction n with
  | zero => intro k ext rrest h; simp [backtrackExt] at h
  | succ n ih =>
    intro k ext rrest h
    unfold backtrackExt at h
    cases hm : matchExt (r.drop (n + 1)) with
    | some pr =>
      rw [hm] at h
      obtain ⟨e, re⟩ := pr
      simp only [Option.some.injEq, Prod.mk.injEq] at h
      obtain ⟨hk, he, hre⟩ := h
      subst hk
      subst he
      subst hre
      exact ⟨by omega, hm⟩
    | none =>
      rw [hm] at h
      exact ih h

/-- If `matchCI` accepts `ext` in full, then any list with suffix `ext`
ends with the pattern case-insensitively. -/
theorem endsWithCI_of_matchCI {pat ext : List Char} (pre : List Char)
    (h : matchCI pat ext = some (ext, [])) :
    endsWithCI pat (pre ++ ext) = true := by
  have hlen := matchCI_length h
  have h1 : pat.length ≤ (pre ++ ext).length := by
    simp only [List.length_append]
    omega
  have h2 : (pre ++ ext).drop ((pre ++ ext).length - pat.length) = ext := by
    have heq : (pre ++ ext).length - pat.length = pre.length := by
      simp only [List.length_append]
      omega
    rw [heq, List.drop_left]
  unfold endsWithCI
  rw [h2]
  simp only [h, Option.isSome_some, Bool.and_true, decide_eq_true_eq,
    List.length_append]
  omega

/-- A match found by `tryMatchAt` is a non-empty prefix of the input and a
bare image URL. -/
theorem tryMatchAt_spec {cs m rest : List Char}
    (h : tryMatchAt cs = some (m, rest)) :
    m ++ rest = cs ∧ m ≠ [] ∧ isImageUrl m = true := by
  unfold tryMatchAt at h
  cases hsch : matchScheme cs with
  | none => rw [hsch] at h; exact absurd h (by simp)
  | some pr =>
    obtain ⟨sch, rest1⟩ := pr
    rw [hsch] at h
    dsimp only at h
    cases hbt : backtrackExt (takeNonSpace rest1).1 (takeNonSpace rest1).1.length with
    | none => rw [hbt] at h; exact absurd h (by simp)
    | some pr2 =>
      obtain ⟨k, ext, rrest⟩ := pr2
      rw [hbt] at h
      simp only [Option.some.injEq, Prod.mk.injEq] at h
      obtain ⟨hm, hrest⟩ := h
      subst hm
      subst hrest
      obtain ⟨happ, hne, hstart, hws⟩ := matchScheme_spec hsch
      obtain ⟨hk1, hext⟩ := backtrackExt_spec hbt
      obtain ⟨hext_app, hext_pat⟩ := matchExt_spec hext
      obtain ⟨hts_app, hts_ws⟩ := takeNonSpace_spec rest1
      have hsplit : (takeNonSpace rest1).1.take k ++ (ext ++ rrest)
          = (takeNonSpace rest1).1 := by
        rw [hext_app]
        exact List.take_append_drop k _
      refine ⟨?_, ?_, ?_⟩
      · calc (sch ++ ((takeNonSpace rest1).1.take k ++ ext)) ++ (rrest ++ (takeNonSpace rest1).2)
            = sch ++ (((takeNonSpace rest1).1.take k ++ (ext ++ rrest))
                ++ (takeNonSpace rest1).2) := by
              simp [List.append_assoc]
          _ = sch ++ ((takeNonSpace rest1).1 ++ (takeNonSpace rest1).2) := by
              rw [hsplit]
          _ = sch ++ rest1 := by rw [hts_app]
          _ = cs := happ
      · intro hmnil
        exact hne (List.append_eq_nil.mp hmnil).1
      · unfold isImageUrl
        refine ((Bool.and_eq_true _ _).mpr ⟨(Bool.and_eq_true _ _).mpr ⟨?_, ?_⟩, ?_⟩)
        · exact hstart _
        · rw [List.all_eq_true]
          intro c hc
          have hcf : jsWhitespaceChar c = false := by
            rcases List.mem_append.mp hc with hc | hc
            · exact hws c hc
            · rcases List.mem_append.mp hc with hc | hc
              · exact hts_ws c (List.mem_of_mem_take hc)
              · have : c ∈ (takeNonSpace rest1).1.drop k := by
                  rw [← hext_app]
                  exact List.mem_append.mpr (Or.inl hc)
                exact hts_ws c (List.mem_of_mem_drop this)
          simp [hcf]
        · have hrw : ∀ pat : List Char, matchCI pat ext = some (ext, []) →
              endsWithCI pat (sch ++ ((takeNonSpace rest1).1.take k ++ ext)) = true := by
            intro pat hp
            have hend := endsWithCI_of_matchCI (sch ++ (takeNonSpace rest1).1.take k) hp
            rw [List.append_assoc] at hend
            exact hend
          simp only [Bool.or_eq_true]
          rcases hext_pat with hp | hp | hp | hp
          · exact Or.inl (Or.inl (Or.inl (hrw _ hp)))
          · exact Or.inl (Or.inl (Or.inr (hrw _ hp)))
          · exact Or.inl (Or.inr (hrw _ hp))
          · exact Or.inr (hrw _ hp)

/-- The segments produced by the scan concatenate back to the input. -/
theorem scanSegs_concat : ∀ (fuel : Nat) (cs : List Char),
    ((scanSegs fuel cs).map Prod.snd).flatten = cs := by
  intro fuel
  induction fuel with
  | zero =>
    intro cs
    cases cs with
    | nil => rfl
    | cons c cs' => simp [scanSegs]
  | succ fuel ih =>
    intro cs
    cases cs with
    | nil => rfl
    | cons c cs' =>
      unfold scanSegs
      cases htm : tryMatchAt (c :: cs') with
      | some pr =>
        obtain ⟨m, rest⟩ := pr
        dsimp only
        simp [ih rest, (tryMatchAt_spec htm).1]
      | none =>
        dsimp only
        simp [ih cs']

/-- Every segment the scan marks as a match is a bare image URL. -/
theorem scanSegs_sound : ∀ (fuel : Nat) (cs : List Char),
    ∀ seg ∈ scanSegs fuel cs, seg.1 = true → isImageUrl seg.2 = true := by
  intro fuel
  induction fuel with
  | zero =>
    intro cs seg hseg htrue
    unfold scanSegs at hseg
    split at hseg
    · simp at hseg
    · rcases List.mem_cons.mp hseg with hseg | hseg
      · rw [hseg] at htrue
        simp at htrue
      · simp at hseg
  | succ fuel ih =>
    intro cs seg hseg htrue
    cases cs with
    | nil => simp [scanSegs] at hseg
    | cons c cs' =>
      unfold scanSegs at hseg
      cases htm : tryMatchAt (c :: cs') with
      | some pr =>
        obtain ⟨m, rest⟩ := pr
        rw [htm] at hseg
        dsimp only at hseg
        rcases List.mem_cons.mp hseg with hseg | hseg
        · rw [hseg]
          exact (tryMatchAt_spec htm).2.2
        · exact ih rest seg hseg htrue
      | none =>
        rw [htm] at hseg
        dsimp only at hseg
        rcases List.mem_cons.mp hseg with hseg | hseg
        · rw [hseg] at htrue
          simp at htrue
        · exact ih cs' seg hseg htrue

/-- C8: the pre-pass is a single whole-text scan whose output is the
rendering of a segmentation of the input: matched segments are rewritten to
the image-markup reference (`renderSegs` emits `![](` match `)`), every
matched segment is a bare http(s) URL with no whitespace ending in `.png`,
`.jpg`, `.jpeg` or `.gif` case-insensitively, and the unmatched segments —
all other text — are carried over verbatim, so that the segments
concatenate back to the original text.  Concrete instances: an image URL
(uppercase extension included) is rewritten in place, a URL with trailing
characters is rewritten exactly on its image-URL prefix, and text whose
URLs have no image extension is left unchanged. -/
theorem c8_image_autolink :
    (∀ s : String,
      formatTextWithImages s
        = String.mk (renderSegs (scanSegs s.toList.length s.toList)) ∧
      ((scanSegs s.toList.length s.toList).map Prod.snd).flatten = s.toList ∧
      ∀ seg ∈ scanSegs s.toList.length s.toList,
        seg.1 = true → isImageUrl seg.2 = true) ∧
    formatTextWithImages "see https://x.com/a.PNG ok"
      = "see ![](https://x.com/a.PNG) ok" ∧
    formatTextWithImages "a http://x.pngx b" = "a ![](http://x.png)x b" ∧
    formatTextWithImages "no image here http://a.txt http://b"
      = "no image here http://a.txt http://b" := by
  refine ⟨fun s => ⟨rfl, scanSegs_concat _ _, scanSegs_sound _ _⟩, ?_, ?_, ?_⟩
  · decide
  · decide
  · decide

/-- C7 amended, witnessed at the clock reading 0. -/
theorem c7_amended_witness :
    chatAppLoadEffect (some StoredHistory.corrupt) = ([], none) ∧
    getFromLocalStorage (some StoredHistory.corrupt) = none ∧
    widgetLoadMessages (some StoredHistory.corrupt) 0
      = ([welcomeMessage 0], some StoredHistory.corrupt) :=
  c7_amended_corrupt_history 0
